import Mathlib

/-!
Verification of the branch classification and safe-deletion engine of the
branch-cleanup CLI (src/cli.js).

The development is a shallow embedding of the program: commit graphs, branch
inventories and the classification and deletion logic are translated into
executable Lean definitions, external git commands and the interactive prompt
being modelled as explicit inputs (state transformers and oracles).  Machine
arithmetic is exact here: commit timestamps and clock readings are integers
in unix seconds.
-/

namespace BranchCleanup

/-- Commit hashes are opaque content identifiers; we model them as naturals. -/
abbrev Hash := Nat

/-- A commit object: its hash, its ordered parent list (the first parent is
the mainline parent), and its committer timestamp in unix seconds (the value
git prints for the ct format). -/
structure Commit where
  hash : Hash
  parents : List Hash
  time : Int
deriving Repr, DecidableEq

/-- Look a commit up in the object store by hash. -/
def findCommit (hist : List Commit) (h : Hash) : Option Commit :=
  hist.find? (fun c => c.hash == h)

/-- First-parent walk of the history starting from a tip commit: the commits
listed by git log tip with the first-parent option.  The walk stops at a root
commit or a missing object; the fuel argument keeps the recursion structural
and is taken large enough in every concrete instance. -/
def firstParentChain (hist : List Commit) : Nat → Option Hash → List Commit
  | _, none => []
  | 0, some _ => []
  | fuel + 1, some h =>
    match findCommit hist h with
    | none => []
    | some c => c :: firstParentChain hist fuel c.parents.head?

/-- The lines printed by git log with the merges, first-parent and parent
format options (cli.js line 131): the parent lists of the merge commits on
the base branch's mainline. -/
def mergeParentLines (hist : List Commit) (fuel : Nat) (baseTip : Option Hash) :
    List (List Hash) :=
  ((firstParentChain hist fuel baseTip).filter (fun c => 2 ≤ c.parents.length)).map
    (fun c => c.parents)

/-- cli.js getDirectlyMergedCommitHashes (lines 125-142): for every output
line holding more than one parent hash, record the second parent. -/
def getDirectlyMergedCommitHashes (hist : List Commit) (fuel : Nat) (baseTip : Option Hash) :
    List Hash :=
  (mergeParentLines hist fuel baseTip).filterMap (fun parents => parents[1]?)

/-- Strip the leading remote name and separator from a full remote branch
name: the substring call of cli.js lines 113 and 373. -/
def shortNameOf (rname full : String) : String :=
  String.mk (full.data.drop (rname.length + 1))

/-- Does a name contain the arrow marker of symbolic pointers?  Models the
includes check in cli.js getBranchTipMap (line 116). -/
def hasArrow : List Char → Bool
  | '-' :: '>' :: _ => true
  | _ :: rest => hasArrow rest
  | [] => false

/-- cli.js getBranchTipMap (lines 95-122): branch name and tip pairs as
printed by the git branch format query; for remote branches the remote
name is stripped, and empty names and symbolic pointers are dropped. -/
def getBranchTipMap (lines : List (String × Hash)) (remote : Bool) (rname : String) :
    List (String × Hash) :=
  lines.foldl (fun acc p =>
    let name :=
      if remote && List.isPrefixOf (rname ++ "/").data p.1.data then shortNameOf rname p.1
      else p.1
    if name != "" && !(hasArrow name.data) then acc ++ [(name, p.2)] else acc) []

/-- Classification of local branches merged into the base (cli.js lines
207-212): branches whose tip hash is in the merged set, excluding the base
branch and the currently checked-out branch. -/
def localMergedToDelete (tips : List (String × Hash)) (mergedHashes : List Hash)
    (base current : String) : List String :=
  tips.filterMap (fun p =>
    if p.2 ∈ mergedHashes ∧ p.1 ≠ base ∧ p.1 ≠ current then some p.1 else none)

/-- Classification of remote branches merged into the remote base (cli.js
lines 349-354): only the base branch is excluded. -/
def remoteMergedToDelete (tips : List (String × Hash)) (mergedHashes : List Hash)
    (base : String) : List String :=
  tips.filterMap (fun p =>
    if p.2 ∈ mergedHashes ∧ p.1 ≠ base then some p.1 else none)

/-- Longest run of leading decimal digits. -/
def leadingDigits (cs : List Char) : List Char := cs.takeWhile Char.isDigit

/-- Numeric value of a digit run. -/
def digitsToNat (ds : List Char) : Nat :=
  ds.foldl (fun acc c => acc * 10 + (c.toNat - 48)) 0

/-- JavaScript parseInt with radix 10 on a string: skip leading whitespace,
read an optional sign and then the longest run of decimal digits; none
models the NaN result. -/
def jsParseInt (s : String) : Option Int :=
  match s.data.dropWhile Char.isWhitespace with
  | '-' :: rest =>
    if (leadingDigits rest).isEmpty then none
    else some (-(digitsToNat (leadingDigits rest) : Int))
  | '+' :: rest =>
    if (leadingDigits rest).isEmpty then none
    else some ((digitsToNat (leadingDigits rest) : Int))
  | cs =>
    if (leadingDigits cs).isEmpty then none
    else some ((digitsToNat (leadingDigits cs) : Int))

/-- Outcome of the stale-flag handling at cli.js lines 40-44: the effective
number of days and whether the invalid-value warning was printed. -/
structure StaleParse where
  days : Int
  warned : Bool
deriving Repr, DecidableEq

/-- cli.js lines 40-44: an absent flag gives the default 120 with no warning;
a present flag is parsed with parseInt, and a NaN result prints the warning
and falls back to 120. -/
def actualStaleDaysOf (staleArg : Option String) : StaleParse :=
  match staleArg with
  | none => { days := 120, warned := false }
  | some v =>
    match jsParseInt v with
    | some n => { days := n, warned := false }
    | none => { days := 120, warned := true }

/-- The stale cutoff (cli.js lines 220 and 362): the clock reading now, in
unix seconds, minus the threshold converted from days to seconds. -/
def staleThresholdOf (nowSec : Int) (days : Int) : Int :=
  nowSec - days * 24 * 60 * 60

/-- The staleness test on a known commit timestamp (cli.js lines 236 and
382): a non-strict comparison against the cutoff. -/
def isStale (ts : Int) (thr : Int) : Bool := decide (ts ≤ thr)

/-- The local stale loop of cli.js lines 228-257: walk the branch list,
skipping the base branch and already-handled names; a branch with a known
(positive) timestamp is added to the stale list when it passes the cutoff
test and is not already classified merged; stale names and handled names
accumulate together.  Returns the stale and handled lists. -/
def localStaleLoop (base : String) (tsf : String → Int) (merged : List String) (thr : Int) :
    List String → List String → List String → List String × List String
  | [], stale, handled => (stale, handled)
  | b :: rest, stale, handled =>
    if b = base ∨ b ∈ handled then
      localStaleLoop base tsf merged thr rest stale handled
    else if 0 < tsf b then
      if isStale (tsf b) thr then
        if isStale (tsf b) thr ∧ b ∉ merged then
          localStaleLoop base tsf merged thr rest (stale ++ [b]) (handled ++ [b])
        else
          localStaleLoop base tsf merged thr rest stale handled
      else
        localStaleLoop base tsf merged thr rest stale handled
    else
      localStaleLoop base tsf merged thr rest stale handled

/-- The filter applied to the git branch -r output before the remote stale
loop (cli.js lines 368-370): keep nonempty names carrying the remote name,
other than one equal to the full ref of the remote base (a comparison that a
short remote name in fact never matches). -/
def remoteStaleBranchPick (rname base : String) (lines : List String) : List String :=
  lines.filter (fun b =>
    b != "" && List.isPrefixOf (rname ++ "/").data b.data &&
      b != ("refs/remotes/" ++ rname ++ "/" ++ base))

/-- The remote stale loop of cli.js lines 372-401: like the local loop, but
the walked list holds full remote-tracking names; the remote name is
stripped to obtain the short name used for the base skip, the merged
precedence check and the recorded candidate, while the timestamp query uses
the full name. -/
def remoteStaleLoop (rname base : String) (tsf : String → Int) (merged : List String)
    (thr : Int) :
    List String → List String → List String → List String × List String
  | [], stale, handled => (stale, handled)
  | full :: rest, stale, handled =>
    let short := shortNameOf rname full
    if short = base ∨ short ∈ handled then
      remoteStaleLoop rname base tsf merged thr rest stale handled
    else if 0 < tsf full then
      if isStale (tsf full) thr ∧ short ∉ merged then
        remoteStaleLoop rname base tsf merged thr rest (stale ++ [short]) (handled ++ [short])
      else
        remoteStaleLoop rname base tsf merged thr rest stale handled
    else
      remoteStaleLoop rname base tsf merged thr rest stale handled

/-- The branch state of the repository and of its remote: local branches,
remote-tracking refs (full names such as origin/x), the branches actually
present on the remote (short names), the checked-out branch (empty when
detached), and the commit object store. -/
structure RepoState where
  localBranches : List (String × Hash)
  remoteTracking : List (String × Hash)
  remoteBranches : List (String × Hash)
  currentBranch : String
  history : List Commit
deriving Repr, DecidableEq

/-- The hardcoded remote identifier of cli.js line 46. -/
def remoteName : String := "origin"

/-- Effect of git fetch with the prune option: the remote-tracking refs
become exact copies of the remote's branches. -/
def prune (s : RepoState) : RepoState :=
  { s with remoteTracking := s.remoteBranches.map (fun p => (remoteName ++ "/" ++ p.1, p.2)) }

/-- Resolve a local branch name to its tip hash. -/
def resolveLocalRef (s : RepoState) (name : String) : Option Hash :=
  (s.localBranches.find? (fun p => p.1 == name)).map (fun p => p.2)

/-- Resolve a remote-tracking name (origin/x) to its tip hash. -/
def resolveRemoteRef (s : RepoState) (name : String) : Option Hash :=
  (s.remoteTracking.find? (fun p => p.1 == name)).map (fun p => p.2)

/-- cli.js getBranchCommitTimestamp (lines 82-92): the committer timestamp of
the tip of the named ref (local names and remote-tracking names both
resolve), with 0 signalling failure. -/
def getBranchCommitTimestamp (s : RepoState) (name : String) : Int :=
  match (s.localBranches ++ s.remoteTracking).find? (fun p => p.1 == name) with
  | none => 0
  | some p =>
    match findCommit s.history p.2 with
    | none => 0
    | some c => c.time

/-- Per-batch deletion accounting: the deleted and failed counters that each
deletion loop of cli.js accumulates. -/
structure Outcome where
  deleted : Nat
  failed : Nat
deriving Repr, DecidableEq

/-- The deletion loops of cli.js (lines 280-290, 313-323, 423-433, 456-465):
attempt every selected branch in turn; a successful delete command updates
the repository state and increments deleted, a failing one is caught and
increments failed, and the loop always continues with the remaining
branches. -/
def deleteLoop (attempt : String → RepoState → Option RepoState) :
    List String → RepoState → Outcome → RepoState × Outcome
  | [], s, o => (s, o)
  | b :: rest, s, o =>
    match attempt b s with
    | some s2 => deleteLoop attempt rest s2 { o with deleted := o.deleted + 1 }
    | none => deleteLoop attempt rest s { o with failed := o.failed + 1 }

/-- Effect of a successful local branch delete command. -/
def removeLocalBranch (s : RepoState) (b : String) : RepoState :=
  { s with localBranches := s.localBranches.filter (fun p => p.1 != b) }

/-- Effect of a successful remote delete push. -/
def removeRemoteBranch (s : RepoState) (b : String) : RepoState :=
  { s with remoteBranches := s.remoteBranches.filter (fun p => p.1 != b) }

/-- The gated local stale classification of step 2b: the loop runs on the
local branch names exactly when a cutoff was computed. -/
def staleCandidatesLocal (base : String) (tsf : String → Int) (merged : List String)
    (branches : List String) : Option Int → List String
  | some thr => (localStaleLoop base tsf merged thr branches [] []).1
  | none => []

/-- The gated remote stale classification of step 3b: the loop runs on the
filtered remote-tracking names exactly when a cutoff was computed. -/
def staleCandidatesRemote (rname base : String) (tsf : String → Int) (merged : List String)
    (lines : List String) : Option Int → List String
  | some thr => (remoteStaleLoop rname base tsf merged thr lines [] []).1
  | none => []

/-- The parsed command line of cli.js lines 38-46; staleArg holds the raw
value of the stale flag when the flag is present. -/
structure Config where
  baseBranch : String
  deleteRemote : Bool
  staleArg : Option String
  dryRun : Bool

/-- External collaborators of the run: the interactive selection prompt for
each category, and the success or failure of each git delete command. -/
structure Oracles where
  selectLocalMerged : List String → List String
  selectLocalStale : List String → List String
  selectRemoteMerged : List String → List String
  selectRemoteStale : List String → List String
  localMergedOk : String → Bool
  localStaleOk : String → Bool
  remoteDeleteOk : String → Bool

/-- Observable results of one invocation: the final repository state, the
summary counters, the candidate sets and stale cutoffs each scope computed,
and whether the summary printed the dry-run no-deletions line. -/
structure RunResult where
  state : RepoState
  totalLocalDeleted : Nat
  totalLocalFailed : Nat
  totalRemoteDeleted : Nat
  totalRemoteFailed : Nat
  localMergedCandidates : List String
  localStaleCandidates : List String
  remoteMergedCandidates : List String
  remoteStaleCandidates : List String
  localThreshold : Option Int
  remoteThreshold : Option Int
  summaryNoDeletions : Bool

/-- The main flow of cli.js lines 170-502.  t1 and t2 are the clock readings
in unix seconds taken by the local and the remote stale steps (each models
one evaluation of the Date.now() expression); fuel bounds the mainline
walks. -/
def runMain (cfg : Config) (orc : Oracles) (t1 t2 : Int) (fuel : Nat) (s0 : RepoState) :
    RunResult :=
  let days := (actualStaleDaysOf cfg.staleArg).days
  -- Step 1: initial prune.
  let s1 := prune s0
  -- Step 2a: local branches merged into the local base (skipped when the
  -- base branch cannot be verified).
  let baseOk := s1.localBranches.any (fun p => p.1 == cfg.baseBranch)
  let locMerged :=
    if baseOk then
      localMergedToDelete (getBranchTipMap s1.localBranches false remoteName)
        (getDirectlyMergedCommitHashes s1.history fuel (resolveLocalRef s1 cfg.baseBranch))
        cfg.baseBranch s1.currentBranch
    else []
  -- Step 2b: local stale branches, only when the stale flag was passed.
  let thrL := if cfg.staleArg.isSome then some (staleThresholdOf t1 days) else none
  let locStale :=
    staleCandidatesLocal cfg.baseBranch (getBranchCommitTimestamp s1) locMerged
      (s1.localBranches.map (fun p => p.1)) thrL
  -- Step 2c: local deletions, skipped entirely in dry-run.
  let dLM :=
    if cfg.dryRun then (s1, ({ deleted := 0, failed := 0 } : Outcome))
    else
      deleteLoop (fun b st => if orc.localMergedOk b then some (removeLocalBranch st b) else none)
        (orc.selectLocalMerged locMerged) s1 { deleted := 0, failed := 0 }
  let dLS :=
    if cfg.dryRun then (dLM.1, ({ deleted := 0, failed := 0 } : Outcome))
    else
      deleteLoop (fun b st => if orc.localStaleOk b then some (removeLocalBranch st b) else none)
        (orc.selectLocalStale locStale) dLM.1 { deleted := 0, failed := 0 }
  let s3 := dLS.1
  -- Step 3a: remote branches merged into the remote base (remote flag only).
  let baseOkR := s3.remoteTracking.any (fun p => p.1 == remoteName ++ "/" ++ cfg.baseBranch)
  let remMerged :=
    if cfg.deleteRemote && baseOkR then
      remoteMergedToDelete (getBranchTipMap s3.remoteTracking true remoteName)
        (getDirectlyMergedCommitHashes s3.history fuel
          (resolveRemoteRef s3 (remoteName ++ "/" ++ cfg.baseBranch)))
        cfg.baseBranch
    else []
  -- Step 3b: remote stale branches.
  let thrR :=
    if cfg.staleArg.isSome && cfg.deleteRemote then some (staleThresholdOf t2 days) else none
  let remStale :=
    staleCandidatesRemote remoteName cfg.baseBranch (getBranchCommitTimestamp s3) remMerged
      (remoteStaleBranchPick remoteName cfg.baseBranch (s3.remoteTracking.map (fun p => p.1)))
      thrR
  -- Step 3c: remote deletions, skipped in dry-run.
  let dRM :=
    if cfg.deleteRemote && !cfg.dryRun then
      deleteLoop (fun b st => if orc.remoteDeleteOk b then some (removeRemoteBranch st b) else none)
        (orc.selectRemoteMerged remMerged) s3 { deleted := 0, failed := 0 }
    else (s3, ({ deleted := 0, failed := 0 } : Outcome))
  let dRS :=
    if cfg.deleteRemote && !cfg.dryRun then
      deleteLoop (fun b st => if orc.remoteDeleteOk b then some (removeRemoteBranch st b) else none)
        (orc.selectRemoteStale remStale) dRM.1 { deleted := 0, failed := 0 }
    else (dRM.1, ({ deleted := 0, failed := 0 } : Outcome))
  let totalRemoteDeleted := dRM.2.deleted + dRS.2.deleted
  let totalRemoteFailed := dRM.2.failed + dRS.2.failed
  -- Step 4: final prune, only after actual remote deletion attempts.
  let s6 :=
    if cfg.deleteRemote ∧ cfg.dryRun = false ∧ (0 < totalRemoteDeleted ∨ 0 < totalRemoteFailed)
    then prune dRS.1 else dRS.1
  { state := s6
    totalLocalDeleted := dLM.2.deleted + dLS.2.deleted
    totalLocalFailed := dLM.2.failed + dLS.2.failed
    totalRemoteDeleted := totalRemoteDeleted
    totalRemoteFailed := totalRemoteFailed
    localMergedCandidates := locMerged
    localStaleCandidates := locStale
    remoteMergedCandidates := remMerged
    remoteStaleCandidates := remStale
    localThreshold := thrL
    remoteThreshold := thrR
    summaryNoDeletions := cfg.dryRun }

/-- Oracles under which every selection keeps the whole candidate list and
every delete command succeeds. -/
def orcAll : Oracles :=
  { selectLocalMerged := id
    selectLocalStale := id
    selectRemoteMerged := id
    selectRemoteStale := id
    localMergedOk := fun _ => true
    localStaleOk := fun _ => true
    remoteDeleteOk := fun _ => true }

/-! Helper lemmas about the embedded definitions. -/

/-- Membership in the merged-hash set: exactly the second parents of the
merge commits on the mainline. -/
lemma mem_getDirectlyMergedCommitHashes {hist : List Commit} {fuel : Nat}
    {baseTip : Option Hash} {x : Hash} :
    x ∈ getDirectlyMergedCommitHashes hist fuel baseTip ↔
      ∃ c, c ∈ firstParentChain hist fuel baseTip ∧ 2 ≤ c.parents.length ∧
        c.parents[1]? = some x := by
  simp [getDirectlyMergedCommitHashes, mergeParentLines, and_assoc]

/-- Membership in the local merged classification. -/
lemma mem_localMergedToDelete {tips : List (String × Hash)} {mh : List Hash}
    {base current B : String} :
    B ∈ localMergedToDelete tips mh base current ↔
      ∃ t, (B, t) ∈ tips ∧ t ∈ mh ∧ B ≠ base ∧ B ≠ current := by
  simp only [localMergedToDelete, List.mem_filterMap]
  constructor
  · rintro ⟨⟨n, t⟩, hmem, hf⟩
    by_cases hc : t ∈ mh ∧ n ≠ base ∧ n ≠ current
    · rw [if_pos hc] at hf
      injection hf with hn
      subst hn
      exact ⟨t, hmem, hc⟩
    · rw [if_neg hc] at hf
      exact absurd hf (by simp)
  · rintro ⟨t, hmem, h1, h2, h3⟩
    exact ⟨(B, t), hmem, by rw [if_pos ⟨h1, h2, h3⟩]⟩

/-- Membership in the remote merged classification. -/
lemma mem_remoteMergedToDelete {tips : List (String × Hash)} {mh : List Hash}
    {base B : String} :
    B ∈ remoteMergedToDelete tips mh base ↔
      ∃ t, (B, t) ∈ tips ∧ t ∈ mh ∧ B ≠ base := by
  simp only [remoteMergedToDelete, List.mem_filterMap]
  constructor
  · rintro ⟨⟨n, t⟩, hmem, hf⟩
    by_cases hc : t ∈ mh ∧ n ≠ base
    · rw [if_pos hc] at hf
      injection hf with hn
      subst hn
      exact ⟨t, hmem, hc⟩
    · rw [if_neg hc] at hf
      exact absurd hf (by simp)
  · rintro ⟨t, hmem, h1, h2⟩
    exact ⟨(B, t), hmem, by rw [if_pos ⟨h1, h2⟩]⟩

/-- Deletion accounting: the loop visits every branch of the batch, and each
visit increments exactly one of the two counters. -/
lemma deleteLoop_count (attempt : String → RepoState → Option RepoState) :
    ∀ (bs : List String) (s : RepoState) (o : Outcome),
      (deleteLoop attempt bs s o).2.deleted + (deleteLoop attempt bs s o).2.failed =
        o.deleted + o.failed + bs.length := by
  intro bs
  induction bs with
  | nil => intro s o; simp [deleteLoop]
  | cons b rest ih =>
    intro s o
    cases h : attempt b s with
    | some s2 =>
      simp only [deleteLoop, h]
      rw [ih]
      simp only [List.length_cons]
      omega
    | none =>
      simp only [deleteLoop, h]
      rw [ih]
      simp only [List.length_cons]
      omega

/-- Eligibility of a branch for the local stale list. -/
def localStaleCond (base : String) (tsf : String → Int) (merged : List String) (thr : Int)
    (b : String) : Prop :=
  b ≠ base ∧ 0 < tsf b ∧ isStale (tsf b) thr = true ∧ b ∉ merged

/-- Characterisation of the local stale loop, over a common accumulator for
the stale and handled lists (they grow in lockstep): a name is in the
resulting stale list exactly when it was accumulated already or occurs in
the walked list and satisfies the eligibility conditions. -/
lemma localStaleLoop_mem (base : String) (tsf : String → Int) (merged : List String)
    (thr : Int) :
    ∀ (branches acc : List String) (b : String),
      b ∈ (localStaleLoop base tsf merged thr branches acc acc).1 ↔
        b ∈ acc ∨ (b ∉ acc ∧ b ∈ branches ∧ localStaleCond base tsf merged thr b) := by
  intro branches
  induction branches with
  | nil =>
    intro acc b
    simp [localStaleLoop]
  | cons x rest ih =>
    intro acc b
    simp only [localStaleLoop]
    split_ifs with h1 h2 h3 h4
    · -- skip: x is the base or already handled
      rw [ih]
      simp only [List.mem_cons]
      constructor
      · rintro (h | ⟨ha, hm, hP⟩)
        · exact Or.inl h
        · exact Or.inr ⟨ha, Or.inr hm, hP⟩
      · rintro (h | ⟨ha, hmem, hP⟩)
        · exact Or.inl h
        · rcases hmem with rfl | hm
          · rcases h1 with hb | hb
            · exact absurd hb hP.1
            · exact absurd hb ha
          · exact Or.inr ⟨ha, hm, hP⟩
    · -- added: timestamp known, stale and not merged
      rw [ih]
      simp only [List.mem_append, List.mem_cons, List.not_mem_nil, or_false]
      have hxa : x ∉ acc := fun h => h1 (Or.inr h)
      have hxb : x ≠ base := fun h => h1 (Or.inl h)
      by_cases hbx : b = x
      · subst hbx
        constructor
        · intro _
          exact Or.inr ⟨hxa, Or.inl rfl, hxb, h2, h3, h4.2⟩
        · intro _
          exact Or.inl (Or.inr rfl)
      · constructor
        · rintro ((h | h) | ⟨ha, hm, hP⟩)
          · exact Or.inl h
          · exact absurd h hbx
          · exact Or.inr ⟨fun hc => ha (Or.inl hc), Or.inr hm, hP⟩
        · rintro (h | ⟨ha, hmem, hP⟩)
          · exact Or.inl (Or.inl h)
          · rcases hmem with h | hm
            · exact absurd h hbx
            · exact Or.inr ⟨fun hc => hc.elim ha hbx, hm, hP⟩
    · -- timestamp known and stale, but already classified merged
      rw [ih]
      simp only [List.mem_cons]
      have hxm : x ∈ merged := by
        by_contra hc
        exact h4 ⟨h3, hc⟩
      constructor
      · rintro (h | ⟨ha, hm, hP⟩)
        · exact Or.inl h
        · exact Or.inr ⟨ha, Or.inr hm, hP⟩
      · rintro (h | ⟨ha, hmem, hP⟩)
        · exact Or.inl h
        · rcases hmem with rfl | hm
          · exact absurd hxm hP.2.2.2
          · exact Or.inr ⟨ha, hm, hP⟩
    · -- timestamp known but not stale
      rw [ih]
      simp only [List.mem_cons]
      constructor
      · rintro (h | ⟨ha, hm, hP⟩)
        · exact Or.inl h
        · exact Or.inr ⟨ha, Or.inr hm, hP⟩
      · rintro (h | ⟨ha, hmem, hP⟩)
        · exact Or.inl h
        · rcases hmem with rfl | hm
          · exact absurd hP.2.2.1 h3
          · exact Or.inr ⟨ha, hm, hP⟩
    · -- timestamp unknown
      rw [ih]
      simp only [List.mem_cons]
      constructor
      · rintro (h | ⟨ha, hm, hP⟩)
        · exact Or.inl h
        · exact Or.inr ⟨ha, Or.inr hm, hP⟩
      · rintro (h | ⟨ha, hmem, hP⟩)
        · exact Or.inl h
        · rcases hmem with rfl | hm
          · exact absurd hP.2.1 h2
          · exact Or.inr ⟨ha, hm, hP⟩

/-- Eligibility of a full remote-tracking name for the remote stale list. -/
def remoteStaleFullCond (rname : String) (tsf : String → Int) (thr : Int) (b full : String) :
    Prop :=
  shortNameOf rname full = b ∧ 0 < tsf full ∧ isStale (tsf full) thr = true

/-- Characterisation of the remote stale loop, over a common accumulator for
the stale and handled lists: a short name is in the resulting stale list
exactly when it was accumulated already, or it is neither the base nor
already merged and some walked full name yields it and passes the timestamp
and cutoff tests. -/
lemma remoteStaleLoop_mem (rname base : String) (tsf : String → Int) (merged : List String)
    (thr : Int) :
    ∀ (lines acc : List String) (b : String),
      b ∈ (remoteStaleLoop rname base tsf merged thr lines acc acc).1 ↔
        b ∈ acc ∨ (b ∉ acc ∧ b ≠ base ∧ b ∉ merged ∧
          ∃ full, full ∈ lines ∧ remoteStaleFullCond rname tsf thr b full) := by
  intro lines
  induction lines with
  | nil =>
    intro acc b
    simp [remoteStaleLoop]
  | cons full rest ih =>
    intro acc b
    simp only [remoteStaleLoop]
    split_ifs with h1 h2 h3
    · -- skip: the short name is the base or already handled
      rw [ih]
      simp only [List.mem_cons]
      constructor
      · rintro (h | ⟨ha, hb, hm, f, hf, hC⟩)
        · exact Or.inl h
        · exact Or.inr ⟨ha, hb, hm, f, Or.inr hf, hC⟩
      · rintro (h | ⟨ha, hb, hm, f, hf, hC⟩)
        · exact Or.inl h
        · rcases hf with rfl | hf
          · rcases h1 with hc | hc
            · exact absurd (hC.1 ▸ hc) hb
            · exact absurd (hC.1 ▸ hc) ha
          · exact Or.inr ⟨ha, hb, hm, f, hf, hC⟩
    · -- added: known timestamp, stale and the short name not merged
      rw [ih]
      simp only [List.mem_append, List.mem_cons, List.not_mem_nil, or_false]
      have hsb : shortNameOf rname full ≠ base := fun h => h1 (Or.inl h)
      have hsa : shortNameOf rname full ∉ acc := fun h => h1 (Or.inr h)
      by_cases hbs : b = shortNameOf rname full
      · subst hbs
        constructor
        · intro _
          exact Or.inr ⟨hsa, hsb, h3.2, full, Or.inl rfl, rfl, h2, h3.1⟩
        · intro _
          exact Or.inl (Or.inr rfl)
      · constructor
        · rintro ((h | h) | ⟨ha, hb, hm, f, hf, hC⟩)
          · exact Or.inl h
          · exact absurd h hbs
          · exact Or.inr ⟨fun hc => ha (Or.inl hc), hb, hm, f, Or.inr hf, hC⟩
        · rintro (h | ⟨ha, hb, hm, f, hf, hC⟩)
          · exact Or.inl (Or.inl h)
          · rcases hf with rfl | hf
            · exact absurd hC.1.symm hbs
            · exact Or.inr ⟨fun hc => hc.elim ha hbs, hb, hm, f, hf, hC⟩
    · -- known timestamp, but not stale or already merged
      rw [ih]
      simp only [List.mem_cons]
      constructor
      · rintro (h | ⟨ha, hb, hm, f, hf, hC⟩)
        · exact Or.inl h
        · exact Or.inr ⟨ha, hb, hm, f, Or.inr hf, hC⟩
      · rintro (h | ⟨ha, hb, hm, f, hf, hC⟩)
        · exact Or.inl h
        · rcases hf with rfl | hf
          · exact absurd ⟨hC.2.2, hC.1 ▸ hm⟩ h3
          · exact Or.inr ⟨ha, hb, hm, f, hf, hC⟩
    · -- unknown timestamp
      rw [ih]
      simp only [List.mem_cons]
      constructor
      · rintro (h | ⟨ha, hb, hm, f, hf, hC⟩)
        · exact Or.inl h
        · exact Or.inr ⟨ha, hb, hm, f, Or.inr hf, hC⟩
      · rintro (h | ⟨ha, hb, hm, f, hf, hC⟩)
        · exact Or.inl h
        · rcases hf with rfl | hf
          · exact absurd hC.2.1 h2
          · exact Or.inr ⟨ha, hb, hm, f, hf, hC⟩

/-! Concrete repository states and histories used to instantiate theorems. -/

/-- An empty repository state. -/
def stateEmpty : RepoState :=
  { localBranches := [], remoteTracking := [], remoteBranches := [], currentBranch := "",
    history := [] }

/-- A history whose mainline is 4 then 3 then 2: commit 4 is a two-parent
merge bringing in 10, commit 3 is an octopus merge bringing in 11 and 12. -/
def histA : List Commit :=
  [⟨4, [3, 10], 400⟩, ⟨3, [2, 11, 12], 300⟩, ⟨2, [], 200⟩]

/-- A history where hash 3 is both the third parent of the octopus merge 9
and the second parent of the later two-parent merge 10. -/
def histB : List Commit :=
  [⟨10, [9, 3], 500⟩, ⟨9, [8, 4, 3], 400⟩, ⟨8, [], 300⟩]

/-- A history with a single octopus merge: commit 2 merges 5 (second parent)
and 6 (third parent) into 1. -/
def histC : List Commit :=
  [⟨2, [1, 5, 6], 300⟩, ⟨1, [], 200⟩]

/-! Claim theorems. -/

/-- C1: in every history where a branch B was merged into the base via a
two-parent merge commit M on the base branch's first-parent mainline — so
that B's tip hash is the second parent of M — the classifier places B in the
merged set provided B is neither the base branch nor the current branch; and
every branch whose tip is never the second parent of a mainline merge commit
is absent from the merged set. -/
theorem c1_exact_merge_detection (hist : List Commit) (fuel : Nat) (baseTip : Option Hash)
    (tips : List (String × Hash)) (base current B : String) (t : Hash)
    (htip : (B, t) ∈ tips) :
    ((∃ M p1, M ∈ firstParentChain hist fuel baseTip ∧ M.parents = [p1, t]) →
      B ≠ base → B ≠ current →
      B ∈ localMergedToDelete tips (getDirectlyMergedCommitHashes hist fuel baseTip)
        base current)
    ∧ ((∀ M, M ∈ firstParentChain hist fuel baseTip → M.parents[1]? ≠ some t) →
      (∀ t', (B, t') ∈ tips → t' = t) →
      B ∉ localMergedToDelete tips (getDirectlyMergedCommitHashes hist fuel baseTip)
        base current) := by
  constructor
  · rintro ⟨M, p1, hM, hpar⟩ hb hc
    rw [mem_localMergedToDelete]
    refine ⟨t, htip, ?_, hb, hc⟩
    rw [mem_getDirectlyMergedCommitHashes]
    exact ⟨M, hM, by simp [hpar], by rw [hpar]; rfl⟩
  · intro hno huniq hmem
    rw [mem_localMergedToDelete] at hmem
    obtain ⟨t', htip', hmh, _, _⟩ := hmem
    obtain rfl : t' = t := huniq t' htip'
    rw [mem_getDirectlyMergedCommitHashes] at hmh
    obtain ⟨c, hc, _, h2nd⟩ := hmh
    exact hno c hc h2nd

/-- Witness for C1 on a concrete history: the branch at the second parent of
the mainline merge is classified, an unrelated branch is not. -/
theorem c1_exact_merge_detection_witness :
    "fa" ∈ localMergedToDelete [("main", 4), ("fa", 10), ("fb", 7)]
      (getDirectlyMergedCommitHashes histA 5 (some 4)) "main" "main"
    ∧ "fb" ∉ localMergedToDelete [("main", 4), ("fa", 10), ("fb", 7)]
      (getDirectlyMergedCommitHashes histA 5 (some 4)) "main" "main" := by
  constructor
  · exact (c1_exact_merge_detection histA 5 (some 4) [("main", 4), ("fa", 10), ("fb", 7)]
      "main" "main" "fa" 10 (by decide)).1
      ⟨⟨4, [3, 10], 400⟩, 3, by decide, rfl⟩ (by decide) (by decide)
  · exact (c1_exact_merge_detection histA 5 (some 4) [("main", 4), ("fa", 10), ("fb", 7)]
      "main" "main" "fb" 7 (by decide)).2
      (by decide) (by intro t' h; simpa using h)

/-- C8: every branch of a confirmed batch is attempted independently: a
failing delete increments the failed counter without aborting the loop, the
two counters account for the whole batch, and in a batch where X fails and Y
succeeds the outcome is one deleted and one failed. -/
theorem c8_partial_failure_accounting (attempt : String → RepoState → Option RepoState)
    (s s' : RepoState) (X Y : String)
    (hX : attempt X s = none) (hY : attempt Y s = some s') :
    (deleteLoop attempt [X, Y] s { deleted := 0, failed := 0 }).2 =
      { deleted := 1, failed := 1 } ∧
    ∀ (bs : List String) (st : RepoState),
      (deleteLoop attempt bs st { deleted := 0, failed := 0 }).2.deleted +
        (deleteLoop attempt bs st { deleted := 0, failed := 0 }).2.failed = bs.length := by
  constructor
  · simp [deleteLoop, hX, hY]
  · intro bs st
    simpa using deleteLoop_count attempt bs st { deleted := 0, failed := 0 }

/-- Witness for C8: a two-branch batch where the first delete fails and the
second succeeds yields one deleted and one failed. -/
theorem c8_partial_failure_accounting_witness :
    (deleteLoop (fun b st => if b = "Y" then some st else none) ["X", "Y"] stateEmpty
      { deleted := 0, failed := 0 }).2 = { deleted := 1, failed := 1 } ∧
    (deleteLoop (fun b st => if b = "Y" then some st else none) ["X", "Y"] stateEmpty
      { deleted := 0, failed := 0 }).2.deleted +
      (deleteLoop (fun b st => if b = "Y" then some st else none) ["X", "Y"] stateEmpty
        { deleted := 0, failed := 0 }).2.failed = 2 := by
  have h := c8_partial_failure_accounting (fun b st => if b = "Y" then some st else none)
    stateEmpty stateEmpty "X" "Y" (by decide) (by decide)
  exact ⟨h.1, h.2 ["X", "Y"] stateEmpty⟩

/-- C9: a stale flag carrying a value that parseInt cannot read does not fail
and does not disable the stale check: the warning is recorded, the effective
threshold is the default 120 days, and the run still computes a local stale
cutoff from that default. -/
theorem c9_invalid_stale_value (v : String) (h : jsParseInt v = none) :
    actualStaleDaysOf (some v) = { days := 120, warned := true } ∧
    ∀ (base : String) (dRem dry : Bool) (orc : Oracles) (t1 t2 : Int) (fuel : Nat)
      (s0 : RepoState),
      (runMain { baseBranch := base, deleteRemote := dRem, staleArg := some v, dryRun := dry }
        orc t1 t2 fuel s0).localThreshold = some (staleThresholdOf t1 120) := by
  constructor
  · simp [actualStaleDaysOf, h]
  · intro base dRem dry orc t1 t2 fuel s0
    simp [runMain, actualStaleDaysOf, h]

/-- Witness for C9 at the concrete non-numeric value abc. -/
theorem c9_invalid_stale_value_witness :
    actualStaleDaysOf (some "abc") = { days := 120, warned := true } ∧
    (runMain
        { baseBranch := "main", deleteRemote := false, staleArg := some "abc", dryRun := true }
        orcAll 1000 1000 5 stateEmpty).localThreshold =
      some (staleThresholdOf 1000 120) := by
  have h := c9_invalid_stale_value "abc" (by decide)
  exact ⟨h.1, h.2 "main" false true orcAll 1000 1000 5 stateEmpty⟩

/-- C10 as stated is false: in histB the branch tip 3 is the third parent of
the octopus mainline merge 9, yet the branch is classified merged, because
the same hash is also the second parent of the mainline merge 10. -/
theorem c10_counterexample :
    (⟨9, [8, 4, 3], 400⟩ : Commit) ∈ firstParentChain histB 5 (some 10) ∧
    (⟨9, [8, 4, 3], 400⟩ : Commit).parents[2]? = some 3 ∧
    3 ≤ (⟨9, [8, 4, 3], 400⟩ : Commit).parents.length ∧
    "feat" ∈ localMergedToDelete [("feat", 3)]
      (getDirectlyMergedCommitHashes histB 5 (some 10)) "main" "" := by
  decide

/-- C10 amended: only the second listed parent of a mainline merge commit is
ever added to the merged set, so a branch whose tip is a third-or-later
parent of an octopus merge is classified merged only if its tip is also the
second listed parent of some mainline merge commit; a branch whose tip is
never a second parent is not classified. -/
theorem c10_octopus_second_parent_only (hist : List Commit) (fuel : Nat)
    (baseTip : Option Hash) :
    (∀ x, x ∈ getDirectlyMergedCommitHashes hist fuel baseTip →
      ∃ c, c ∈ firstParentChain hist fuel baseTip ∧ 2 ≤ c.parents.length ∧
        c.parents[1]? = some x)
    ∧ ∀ (tips : List (String × Hash)) (base current B : String) (t : Hash),
      (∀ t', (B, t') ∈ tips → t' = t) →
      (∀ c, c ∈ firstParentChain hist fuel baseTip → c.parents[1]? ≠ some t) →
      B ∉ localMergedToDelete tips (getDirectlyMergedCommitHashes hist fuel baseTip)
        base current := by
  constructor
  · intro x hx
    exact mem_getDirectlyMergedCommitHashes.mp hx
  · intro tips base current B t huniq hno hmem
    rw [mem_localMergedToDelete] at hmem
    obtain ⟨t', htip', hmh, _, _⟩ := hmem
    obtain rfl : t' = t := huniq t' htip'
    obtain ⟨c, hc, _, h2nd⟩ := mem_getDirectlyMergedCommitHashes.mp hmh
    exact hno c hc h2nd

/-- Witness for the amended C10 on histC: the merged set holds the second
parent 5 of the octopus merge, and the branch at the third parent 6 is not
classified. -/
theorem c10_octopus_second_parent_only_witness :
    (∃ c, c ∈ firstParentChain histC 5 (some 2) ∧ 2 ≤ c.parents.length ∧
      c.parents[1]? = some 5)
    ∧ "feat3" ∉ localMergedToDelete [("feat3", 6)]
      (getDirectlyMergedCommitHashes histC 5 (some 2)) "main" "" := by
  constructor
  · exact (c10_octopus_second_parent_only histC 5 (some 2)).1 5 (by decide)
  · exact (c10_octopus_second_parent_only histC 5 (some 2)).2 [("feat3", 6)] "main" ""
      "feat3" 6 (by intro t' h; simpa using h) (by decide)

/-- C2 as stated is false: a branch whose known timestamp is exactly equal to
the cutoff now minus days times 86400 IS classified stale (the code compares
with a non-strict inequality), while the claim requires it not to be. -/
theorem c2_counterexample :
    staleThresholdOf 86500 1 = 100 ∧
    "old" ∈ (localStaleLoop "main" (fun _ => 100) [] (staleThresholdOf 86500 1)
      ["old"] [] []).1 := by
  decide

/-- C2 amended: for an eligible branch (known timestamp, not the base, not
already merged), both the local and the remote stale classification hold
exactly when the timestamp is less than or equal to now minus days times
86400: the boundary case is stale, and so is every older timestamp. -/
theorem c2_stale_threshold_nonstrict (branches : List String) (base : String)
    (tsf : String → Int) (merged : List String) (now days : Int) (b : String)
    (hmem : b ∈ branches) (hbase : b ≠ base) (hmerged : b ∉ merged) (hknown : 0 < tsf b) :
    (b ∈ (localStaleLoop base tsf merged (staleThresholdOf now days) branches [] []).1 ↔
      tsf b ≤ now - days * 86400)
    ∧ ∀ (rname : String) (tsfR : String → Int) (mergedR lines : List String) (full : String),
      full ∈ lines → shortNameOf rname full = b → b ∉ mergedR → 0 < tsfR full →
      (∀ f, f ∈ lines → shortNameOf rname f = b → f = full) →
      (b ∈ (remoteStaleLoop rname base tsfR mergedR (staleThresholdOf now days)
        lines [] []).1 ↔ tsfR full ≤ now - days * 86400) := by
  have hthr : staleThresholdOf now days = now - days * 86400 := by
    unfold staleThresholdOf; ring_nf
  constructor
  · rw [localStaleLoop_mem]
    simp only [List.not_mem_nil, false_or, not_false_iff, true_and]
    constructor
    · rintro ⟨_, _, _, hst, _⟩
      rw [isStale, decide_eq_true_eq, hthr] at hst
      exact hst
    · intro hle
      exact ⟨hmem, hbase, hknown, by rw [isStale, decide_eq_true_eq, hthr]; exact hle,
        hmerged⟩
  · intro rname tsfR mergedR lines full hfull hshort hmr hpos huniq
    rw [remoteStaleLoop_mem]
    simp only [List.not_mem_nil, false_or, not_false_iff, true_and]
    constructor
    · rintro ⟨_, _, f, hf, hfb, _, hst⟩
      obtain rfl : f = full := huniq f hf hfb
      rw [isStale, decide_eq_true_eq, hthr] at hst
      exact hst
    · intro hle
      exact ⟨hbase, hmr, full, hfull, hshort, hpos,
        by rw [isStale, decide_eq_true_eq, hthr]; exact hle⟩

/-- Witness for the amended C2: a branch one second older than the cutoff is
classified stale in both scopes. -/
theorem c2_stale_threshold_nonstrict_witness :
    ("old" ∈ (localStaleLoop "main" (fun _ => 99) [] (staleThresholdOf 86500 1)
      ["old"] [] []).1)
    ∧ ("old" ∈ (remoteStaleLoop "origin" "main" (fun _ => 99) []
      (staleThresholdOf 86500 1) ["origin/old"] [] []).1) := by
  have h := c2_stale_threshold_nonstrict ["old"] "main" (fun _ => 99) [] 86500 1 "old"
    (by decide) (by decide) (by decide) (by decide)
  constructor
  · exact h.1.mpr (by decide)
  · exact (h.2 "origin" (fun _ => 99) [] ["origin/old"] "origin/old" (by decide) (by decide)
      (by decide) (by decide) (by intro f hf _; simpa using hf)).mpr (by decide)

/-- The repository state of the C3 counterexample: dev is checked out and has
an old tip. -/
def stateC3 : RepoState :=
  { localBranches := [("main", 4), ("dev", 7)]
    remoteTracking := []
    remoteBranches := []
    currentBranch := "dev"
    history := [⟨4, [], 1000⟩, ⟨7, [], 100⟩]
    }

/-- C3 as stated is false: the currently checked-out branch is excluded from
the merged candidates only; the local stale loop never tests it against the
current branch, so a stale checked-out branch lands in the stale candidate
set. -/
theorem c3_counterexample :
    stateC3.currentBranch = "dev" ∧
    "dev" ∈ (runMain
      { baseBranch := "main", deleteRemote := false, staleArg := some "1", dryRun := true }
      orcAll 86600 86600 5 stateC3).localStaleCandidates := by
  decide

/-- C3 amended: the base branch never appears in any candidate set of either
scope, and the currently checked-out branch never appears in the local
merged candidate set; the local stale set, however, does not exclude the
current branch. -/
theorem c3_base_current_exclusion (tips : List (String × Hash)) (mh : List Hash)
    (base current : String) (tsf : String → Int) (merged branches : List String) (thr : Int)
    (rname : String) (tsfR : String → Int) (mergedR lines : List String) (thrR : Int) :
    (localMergedToDelete tips mh base current).contains base = false ∧
    (localMergedToDelete tips mh base current).contains current = false ∧
    ((localStaleLoop base tsf merged thr branches [] []).1).contains base = false ∧
    (remoteMergedToDelete tips mh base).contains base = false ∧
    ((remoteStaleLoop rname base tsfR mergedR thrR lines [] []).1).contains base = false := by
  have h1 : base ∉ localMergedToDelete tips mh base current := fun h => by
    obtain ⟨_, _, _, hne, _⟩ := mem_localMergedToDelete.mp h
    exact hne rfl
  have h2 : current ∉ localMergedToDelete tips mh base current := fun h => by
    obtain ⟨_, _, _, _, hne⟩ := mem_localMergedToDelete.mp h
    exact hne rfl
  have h3 : base ∉ (localStaleLoop base tsf merged thr branches [] []).1 := fun h => by
    rcases (localStaleLoop_mem base tsf merged thr branches [] base).mp h with hc | ⟨_, _, hP⟩
    · exact List.not_mem_nil base hc
    · exact hP.1 rfl
  have h4 : base ∉ remoteMergedToDelete tips mh base := fun h => by
    obtain ⟨_, _, _, hne⟩ := mem_remoteMergedToDelete.mp h
    exact hne rfl
  have h5 : base ∉ (remoteStaleLoop rname base tsfR mergedR thrR lines [] []).1 := fun h => by
    rcases (remoteStaleLoop_mem rname base tsfR mergedR thrR lines [] base).mp h with
      hc | ⟨_, hne, _, _⟩
    · exact List.not_mem_nil base hc
    · exact hne rfl
  simp [List.elem_eq_mem, h1, h2, h3, h4, h5]

/-- No member of a stale loop result lies in the merged set the loop was
given (local). -/
lemma staleCandidatesLocal_filter (base : String) (tsf : String → Int)
    (merged branches : List String) (thrOpt : Option Int) :
    (staleCandidatesLocal base tsf merged branches thrOpt).filter
      (fun b => merged.contains b) = [] := by
  cases thrOpt with
  | none => simp [staleCandidatesLocal]
  | some thr =>
    rw [staleCandidatesLocal, List.filter_eq_nil_iff]
    intro a ha
    rcases (localStaleLoop_mem base tsf merged thr branches [] a).mp ha with hc | ⟨_, _, hP⟩
    · exact absurd hc (List.not_mem_nil a)
    · simp [List.elem_eq_mem, hP.2.2.2]

/-- No member of a stale loop result lies in the merged set the loop was
given (remote). -/
lemma staleCandidatesRemote_filter (rname base : String) (tsf : String → Int)
    (merged lines : List String) (thrOpt : Option Int) :
    (staleCandidatesRemote rname base tsf merged lines thrOpt).filter
      (fun b => merged.contains b) = [] := by
  cases thrOpt with
  | none => simp [staleCandidatesRemote]
  | some thr =>
    rw [staleCandidatesRemote, List.filter_eq_nil_iff]
    intro a ha
    rcases (remoteStaleLoop_mem rname base tsf merged thr lines [] a).mp ha with
      hc | ⟨_, _, hm, _⟩
    · exact absurd hc (List.not_mem_nil a)
    · simp [List.elem_eq_mem, hm]

/-- C4: after classification, in both scopes, the stale candidate set is
disjoint from the merged candidate set: filtering the stale candidates by
membership in the merged candidates leaves nothing. -/
theorem c4_merged_stale_disjoint (cfg : Config) (orc : Oracles) (t1 t2 : Int) (fuel : Nat)
    (s0 : RepoState) :
    ((runMain cfg orc t1 t2 fuel s0).localStaleCandidates).filter
      (fun b => ((runMain cfg orc t1 t2 fuel s0).localMergedCandidates).contains b) = [] ∧
    ((runMain cfg orc t1 t2 fuel s0).remoteStaleCandidates).filter
      (fun b => ((runMain cfg orc t1 t2 fuel s0).remoteMergedCandidates).contains b) = [] := by
  constructor
  · simp only [runMain]
    exact staleCandidatesLocal_filter _ _ _ _ _
  · simp only [runMain]
    exact staleCandidatesRemote_filter _ _ _ _ _ _

/-- The repository state of the C5 counterexample: a remote-tracking ref
whose branch no longer exists on the remote. -/
def stateC5 : RepoState :=
  { localBranches := [("main", 4)]
    remoteTracking := [("origin/gone", 9)]
    remoteBranches := []
    currentBranch := "main"
    history := [⟨4, [], 1000⟩]
    }

/-- C5 as stated is false: even in dry-run the initial prune of step 1 runs,
so the remote-tracking branch inventory can change during a dry run. -/
theorem c5_counterexample :
    ({ baseBranch := "main", deleteRemote := false, staleArg := none, dryRun := true }
      : Config).dryRun = true ∧
    (runMain
      { baseBranch := "main", deleteRemote := false, staleArg := none, dryRun := true }
      orcAll 0 0 5 stateC5).state.remoteTracking ≠ stateC5.remoteTracking := by
  decide

/-- C5 amended: in dry-run no deletion is ever attempted, all four outcome
counters are zero, the summary reports that no branches were deleted, and
the local and actual remote branch inventories (and the checkout and the
history) are unchanged; the remote-tracking refs, however, end in the state
the unconditional initial prune leaves them in. -/
theorem c5_dry_run_no_mutation (cfg : Config) (orc : Oracles) (t1 t2 : Int) (fuel : Nat)
    (s0 : RepoState) (h : cfg.dryRun = true) :
    (runMain cfg orc t1 t2 fuel s0).totalLocalDeleted = 0 ∧
    (runMain cfg orc t1 t2 fuel s0).totalLocalFailed = 0 ∧
    (runMain cfg orc t1 t2 fuel s0).totalRemoteDeleted = 0 ∧
    (runMain cfg orc t1 t2 fuel s0).totalRemoteFailed = 0 ∧
    (runMain cfg orc t1 t2 fuel s0).summaryNoDeletions = true ∧
    (runMain cfg orc t1 t2 fuel s0).state.localBranches = s0.localBranches ∧
    (runMain cfg orc t1 t2 fuel s0).state.remoteBranches = s0.remoteBranches ∧
    (runMain cfg orc t1 t2 fuel s0).state.currentBranch = s0.currentBranch ∧
    (runMain cfg orc t1 t2 fuel s0).state.history = s0.history ∧
    (runMain cfg orc t1 t2 fuel s0).state.remoteTracking = (prune s0).remoteTracking := by
  simp [runMain, h, prune]

/-- Witness for the amended C5 at a concrete dry-run invocation. -/
theorem c5_dry_run_no_mutation_witness :
    (runMain
      { baseBranch := "main", deleteRemote := false, staleArg := none, dryRun := true }
      orcAll 0 0 5 stateC5).totalLocalDeleted = 0 ∧
    (runMain
      { baseBranch := "main", deleteRemote := false, staleArg := none, dryRun := true }
      orcAll 0 0 5 stateC5).totalLocalFailed = 0 ∧
    (runMain
      { baseBranch := "main", deleteRemote := false, staleArg := none, dryRun := true }
      orcAll 0 0 5 stateC5).totalRemoteDeleted = 0 ∧
    (runMain
      { baseBranch := "main", deleteRemote := false, staleArg := none, dryRun := true }
      orcAll 0 0 5 stateC5).totalRemoteFailed = 0 ∧
    (runMain
      { baseBranch := "main", deleteRemote := false, staleArg := none, dryRun := true }
      orcAll 0 0 5 stateC5).summaryNoDeletions = true ∧
    (runMain
      { baseBranch := "main", deleteRemote := false, staleArg := none, dryRun := true }
      orcAll 0 0 5 stateC5).state.localBranches = stateC5.localBranches ∧
    (runMain
      { baseBranch := "main", deleteRemote := false, staleArg := none, dryRun := true }
      orcAll 0 0 5 stateC5).state.remoteBranches = stateC5.remoteBranches ∧
    (runMain
      { baseBranch := "main", deleteRemote := false, staleArg := none, dryRun := true }
      orcAll 0 0 5 stateC5).state.currentBranch = stateC5.currentBranch ∧
    (runMain
      { baseBranch := "main", deleteRemote := false, staleArg := none, dryRun := true }
      orcAll 0 0 5 stateC5).state.history = stateC5.history ∧
    (runMain
      { baseBranch := "main", deleteRemote := false, staleArg := none, dryRun := true }
      orcAll 0 0 5 stateC5).state.remoteTracking = (prune stateC5).remoteTracking :=
  c5_dry_run_no_mutation
    { baseBranch := "main", deleteRemote := false, staleArg := none, dryRun := true }
    orcAll 0 0 5 stateC5 rfl

/-- The repository state of the C6 counterexample: one branch slightly older
than the clock reading. -/
def stateC6 : RepoState :=
  { localBranches := [("main", 4), ("old", 7)]
    remoteTracking := []
    remoteBranches := []
    currentBranch := "main"
    history := [⟨4, [], 1000⟩, ⟨7, [], 99⟩]
    }

/-- C6 as stated is false: with the stale flag present and an effective
threshold of 0 days (not positive), the stale classification still runs and
classifies a branch stale. -/
theorem c6_counterexample :
    (actualStaleDaysOf (some "0")).days = 0 ∧
    (runMain
      { baseBranch := "main", deleteRemote := false, staleArg := some "0", dryRun := true }
      orcAll 100 100 5 stateC6).localStaleCandidates = ["old"] := by
  decide

/-- C6 amended: when the stale flag is absent, no branch of either scope is
classified stale and no cutoff is computed; the sign of the effective
threshold is never checked. -/
theorem c6_stale_gate_flag_only (cfg : Config) (orc : Oracles) (t1 t2 : Int) (fuel : Nat)
    (s0 : RepoState) (h : cfg.staleArg = none) :
    (runMain cfg orc t1 t2 fuel s0).localStaleCandidates = [] ∧
    (runMain cfg orc t1 t2 fuel s0).remoteStaleCandidates = [] ∧
    (runMain cfg orc t1 t2 fuel s0).localThreshold = none ∧
    (runMain cfg orc t1 t2 fuel s0).remoteThreshold = none := by
  simp [runMain, h, staleCandidatesLocal, staleCandidatesRemote]

/-- Witness for the amended C6 at a concrete invocation without the flag. -/
theorem c6_stale_gate_flag_only_witness :
    (runMain
      { baseBranch := "main", deleteRemote := true, staleArg := none, dryRun := false }
      orcAll 100 100 5 stateC6).localStaleCandidates = [] ∧
    (runMain
      { baseBranch := "main", deleteRemote := true, staleArg := none, dryRun := false }
      orcAll 100 100 5 stateC6).remoteStaleCandidates = [] ∧
    (runMain
      { baseBranch := "main", deleteRemote := true, staleArg := none, dryRun := false }
      orcAll 100 100 5 stateC6).localThreshold = none ∧
    (runMain
      { baseBranch := "main", deleteRemote := true, staleArg := none, dryRun := false }
      orcAll 100 100 5 stateC6).remoteThreshold = none :=
  c6_stale_gate_flag_only
    { baseBranch := "main", deleteRemote := true, staleArg := none, dryRun := false }
    orcAll 100 100 5 stateC6 rfl

/-- C7 as stated is false: the local and the remote scopes each evaluate
their own clock reading, so within one invocation the two cutoffs differ as
soon as the clock advanced between the two stale steps. -/
theorem c7_counterexample :
    (runMain
      { baseBranch := "main", deleteRemote := true, staleArg := some "1", dryRun := true }
      orcAll 1000 1001 5 stateEmpty).localThreshold ≠
    (runMain
      { baseBranch := "main", deleteRemote := true, staleArg := some "1", dryRun := true }
      orcAll 1000 1001 5 stateEmpty).remoteThreshold := by
  decide

/-- C7 amended: each scope computes its cutoff once from a single clock
reading (never per branch), the local cutoff from the first reading and the
remote cutoff from the second; the two cutoffs agree exactly when the two
readings coincide. -/
theorem c7_per_scope_clock_snapshot (cfg : Config) (orc : Oracles) (t1 t2 : Int) (fuel : Nat)
    (s0 : RepoState) (h1 : cfg.staleArg.isSome = true) (h2 : cfg.deleteRemote = true) :
    (runMain cfg orc t1 t2 fuel s0).localThreshold =
      some (staleThresholdOf t1 (actualStaleDaysOf cfg.staleArg).days) ∧
    (runMain cfg orc t1 t2 fuel s0).remoteThreshold =
      some (staleThresholdOf t2 (actualStaleDaysOf cfg.staleArg).days) ∧
    (t1 = t2 →
      (runMain cfg orc t1 t2 fuel s0).localThreshold =
        (runMain cfg orc t1 t2 fuel s0).remoteThreshold) := by
  refine ⟨?_, ?_, ?_⟩
  · simp [runMain, h1]
  · simp [runMain, h1, h2]
  · intro he
    subst he
    simp [runMain, h1, h2]

/-- Witness for the amended C7 at a concrete invocation. -/
theorem c7_per_scope_clock_snapshot_witness :
    (runMain
      { baseBranch := "main", deleteRemote := true, staleArg := some "1", dryRun := true }
      orcAll 1000 1001 5 stateEmpty).localThreshold =
      some (staleThresholdOf 1000 (actualStaleDaysOf (some "1")).days) ∧
    (runMain
      { baseBranch := "main", deleteRemote := true, staleArg := some "1", dryRun := true }
      orcAll 1000 1001 5 stateEmpty).remoteThreshold =
      some (staleThresholdOf 1001 (actualStaleDaysOf (some "1")).days) ∧
    ((1000 : Int) = 1001 →
      (runMain
        { baseBranch := "main", deleteRemote := true, staleArg := some "1", dryRun := true }
        orcAll 1000 1001 5 stateEmpty).localThreshold =
      (runMain
        { baseBranch := "main", deleteRemote := true, staleArg := some "1", dryRun := true }
        orcAll 1000 1001 5 stateEmpty).remoteThreshold) :=
  c7_per_scope_clock_snapshot
    { baseBranch := "main", deleteRemote := true, staleArg := some "1", dryRun := true }
    orcAll 1000 1001 5 stateEmpty rfl rfl

end BranchCleanup
